import Mathlib

/-!
Verification of the thermostat channel control engine against its
natural-language specification.  The Rust sources are shallowly embedded:
`f64`/`f32` arithmetic is modelled by exact rational arithmetic on `ℚ`,
machine integers by `ℕ` with explicit saturation where a Rust `as` cast
saturates, hardware reads by explicit oracle parameters, and fallible code
by `Option`/`Except`.
-/

namespace Thermostat

/-- Rust `f64::clamp(lo, hi)` written with the branch structure of the Rust
standard library (`if self < min .. else if self > max ..`).  Rust asserts
`lo ≤ hi` at runtime; theorems that depend on clamping behaviour carry that
bound as a hypothesis. -/
def rclamp (x lo hi : ℚ) : ℚ :=
  if x < lo then lo else if x > hi then hi else x

namespace pid

/-- `pid::Parameters` from `src/pid.rs`. -/
structure Parameters where
  kp : ℚ
  ki : ℚ
  kd : ℚ
  output_min : ℚ
  output_max : ℚ
deriving DecidableEq

/-- `Parameters::default` from `src/pid.rs`. -/
def Parameters.default : Parameters :=
  { kp := 0, ki := 0, kd := 0, output_min := -2, output_max := 2 }

/-- `pid::Controller` from `src/pid.rs`: gains, target and the three-cell
recurrence state (`u1` mirrors the stored previous target). -/
structure Controller where
  parameters : Parameters
  target : ℚ
  u1 : ℚ
  x1 : ℚ
  x2 : ℚ
  y1 : ℚ
deriving DecidableEq

/-- `Controller::new` from `src/pid.rs`. -/
def Controller.new (parameters : Parameters) : Controller :=
  { parameters, target := 0, u1 := 0, x1 := 0, x2 := 0, y1 := 0 }

/-- `Controller::update` from `src/pid.rs`: the difference-equation output,
clamped, then the history shift `x2 ← x1`, `x1 ← x0`, `u1 ← target`,
`y1 ← y0`.  Returns `(output, new controller)`. -/
def Controller.update (c : Controller) (input : ℚ) : ℚ × Controller :=
  let kp := c.parameters.kp
  let ki := c.parameters.ki
  let kd := c.parameters.kd
  let output0 := c.y1 - ki * c.target + input * (kp + ki + kd)
      - c.x1 * (kp + 2 * kd) + c.x2 * kd
  let output := rclamp output0 c.parameters.output_min c.parameters.output_max
  (output, { c with x2 := c.x1, x1 := input, u1 := c.target, y1 := output })

/-- Drive the controller over a whole input sequence; returns the final
controller and the list of outputs, one per input. -/
def runController (c : Controller) : List ℚ → Controller × List ℚ
  | [] => (c, [])
  | x :: xs =>
    let step := c.update x
    let rest := runController step.2 xs
    (rest.1, step.1 :: rest.2)

end pid

namespace ad7172

/-- `ad7172::MAX_VALUE` from `src/ad7172/mod.rs`: the 24-bit full-scale code,
used as the no-thermistor-connected sentinel. -/
def MAX_VALUE : ℕ := 0xFFFFFF

/-- `ad7172::PostFilter` from `src/ad7172/mod.rs`. -/
inductive PostFilter
  | F27SPS
  | F25SPS
  | F20SPS
  | F16SPS
  | Invalid
deriving DecidableEq

/-- `PostFilter::VALID_VALUES` from `src/ad7172/mod.rs`. -/
def PostFilter.VALID_VALUES : List PostFilter :=
  [PostFilter.F27SPS, PostFilter.F25SPS, PostFilter.F20SPS, PostFilter.F16SPS]

/-- `PostFilter::output_rate` from `src/ad7172/mod.rs` (samples per second). -/
def PostFilter.output_rate : PostFilter → Option ℚ
  | PostFilter.F27SPS => some 27.27
  | PostFilter.F25SPS => some 25.0
  | PostFilter.F20SPS => some 20.0
  | PostFilter.F16SPS => some 16.667
  | PostFilter.Invalid => none

/-- The rate of a preset; every member of `VALID_VALUES` has one, so the
default 0 is never used where `closest` unwraps (`output_rate().unwrap()`). -/
def PostFilter.rateOf (f : PostFilter) : ℚ :=
  (PostFilter.output_rate f).getD 0

/-- One iteration of the loop body of `PostFilter::closest` from
`src/ad7172/mod.rs`: keep the candidate iff it is strictly better than the
best so far (`best.map(..).unwrap_or(true)`). -/
def PostFilter.closestStep (rate : ℚ) (best : Option (ℚ × PostFilter))
    (value : PostFilter) : Option (ℚ × PostFilter) :=
  let error := |rate - PostFilter.rateOf value|
  let better := (best.map (fun be => decide (error < be.1))).getD true
  if better then some (error, value) else best

/-- `PostFilter::closest` from `src/ad7172/mod.rs`. -/
def PostFilter.closest (rate : ℚ) : Option PostFilter :=
  (PostFilter.VALID_VALUES.foldl (PostFilter.closestStep rate) none).map (fun b => b.2)

/-- The loop body of `closest` with the error computation and the comparison
abstracted: `err` stands for `(rate - value.output_rate().unwrap()).abs()` and
`lt` for the `f32` order used in `error < best_error`.  Instantiating `α` with
any model of `f32` (NaN and infinities included) specializes this to the
source loop. -/
def PostFilter.closestGenStep {α : Type} (err : PostFilter → α) (lt : α → α → Bool)
    (best : Option (α × PostFilter)) (value : PostFilter) : Option (α × PostFilter) :=
  let error := err value
  let better := (best.map (fun be => lt error be.1)).getD true
  if better then some (error, value) else best

/-- `PostFilter::closest` with error and comparison abstracted as in
`closestGenStep`. -/
def PostFilter.closestGen {α : Type} (err : PostFilter → α) (lt : α → α → Bool) :
    Option PostFilter :=
  (PostFilter.VALID_VALUES.foldl (PostFilter.closestGenStep err lt) none).map
    (fun b => b.2)

end ad7172

/-- `Error` variants of `src/command_handler.rs` relevant to the postfilter
command (the only error the `set_post_filter` handler itself produces). -/
inductive HandlerError
  | PostFilterRate
deriving DecidableEq

/-- `Handler` result of `src/command_handler.rs` for a handled command. -/
inductive Handler
  | Handled
deriving DecidableEq

/-- The decision structure of `Handler::set_post_filter` from
`src/command_handler.rs` lines 272-297: socket writes and the ADC register
write are external effects; the function errs with `Error::PostFilterRate`
exactly when `PostFilter::closest` returns `None`. -/
def set_post_filter (rate : ℚ) : Except HandlerError Handler :=
  match ad7172.PostFilter.closest rate with
  | some _ => Except.ok Handler.Handled
  | none => Except.error HandlerError.PostFilterRate

namespace ad5680

/-- Modelled from the spec: `src/ad5680.rs` is declared in `main.rs` but is
not among the repository files given.  The spec bounds the DAC code width by
20 bits (§6, `DacDevice`) and describes the calibration step sizes
`2^5 .. 2^17` as power-of-two divisors of the DAC code range (§4.2), which
makes the code range `2^18`; the AD5680 is an 18-bit DAC, so the full-scale
code is `2^18 - 1`. -/
def MAX_VALUE : ℕ := 0x3FFFF

/-- Modelled from the spec: the `DacDevice` capability `set(code)` accepts a
code of the DAC width, so a larger code is clamped to full scale. -/
def set (value : ℕ) : ℕ := min value MAX_VALUE

end ad5680

/-- Rust numeric `as` cast from `f64` to an unsigned integer type:
truncation toward zero, saturating at the bounds of the target type. -/
def natSat (bound : ℕ) (q : ℚ) : ℕ := min (Int.toNat ⌊q⌋) bound

/-- `R_SENSE` from `src/channels.rs` (0.05 Ω). -/
def R_SENSE : ℚ := 0.05

/-- `CPU_ADC_VREF` from `src/channels.rs` (3.3 V). -/
def CPU_ADC_VREF : ℚ := 3.3

/-- `MAX_TEC_I` from `src/channels.rs` (2 A). -/
def MAX_TEC_I : ℚ := 2.0

/-- `MAX_TEC_V` from `src/channels.rs` (4 V). -/
def MAX_TEC_V : ℚ := 4.0

/-- `DAC_OUT_V_MAX` from `src/channels.rs` (3 V after the resistor divider). -/
def DAC_OUT_V_MAX : ℚ := 3.0

/-- `R_INNER` from `src/channel_state.rs`. -/
def R_INNER : ℚ := 2 * 5100

/-- `VREF_SENS` from `src/channel_state.rs`. -/
def VREF_SENS : ℚ := 3.3 / 2

/-- `command_parser::Polarity` from `src/command_parser.rs`. -/
inductive Polarity
  | Normal
  | Reversed
deriving DecidableEq

/-- The sign applied to currents and voltages for a polarity (`1.0` for
`Normal`, `-1.0` for `Reversed`, as written inline in `Channels::set_i`). -/
def polaritySign : Polarity → ℚ
  | Polarity.Normal => 1
  | Polarity.Reversed => -1

/-- `command_parser::CenterPoint` from `src/command_parser.rs`. -/
inductive CenterPoint
  | VRef
  | Override (value : ℚ)
deriving DecidableEq

/-- `config::OutputLimits` from `src/config.rs`, as carried in
`ChannelState.output_limits`. -/
structure OutputLimits where
  max_v : ℚ
  max_i_pos : ℚ
  max_i_neg : ℚ
deriving DecidableEq

/-- `channels::PinsAdcReadTarget` from `src/channels.rs`. -/
inductive PinsAdcReadTarget
  | VRef
  | DacVfb
  | ITec
  | VTec
deriving DecidableEq

/-- `ChannelState` from `src/channel_state.rs`.  Two conversions that live
outside the embeddable core are carried as function-valued fields:
`adc_calibration` abstracts `ad7172::ChannelCalibration::convert_data`
(defined in `src/ad7172/adc.rs`, which is not among the repository files
given), and `bp` abstracts `b_parameter::Parameters::get_temperature`
(a transcendental-log formula with no exact rational counterpart).  No claim
below depends on either formula, only on how their results flow. -/
structure ChannelState where
  adc_data : Option ℕ
  adc_calibration : ℕ → ℚ
  adc_time : ℤ
  adc_interval : ℤ
  center : CenterPoint
  dac_value : ℚ
  i_set : ℚ
  output_limits : OutputLimits
  pid_engaged : Bool
  pid : pid.Controller
  bp : ℚ → ℚ
  polarity : Polarity

/-- `ChannelState::update` from `src/channel_state.rs`: record the sample
interval and time, and map the full-scale sentinel code to an absent
reading. -/
def ChannelState.update (s : ChannelState) (now : ℤ) (adc_data : ℕ) : ChannelState :=
  { s with
    adc_data := if adc_data = ad7172.MAX_VALUE then none else some adc_data,
    adc_interval := now - s.adc_time,
    adc_time := now }

/-- `ChannelState::get_adc` from `src/channel_state.rs`. -/
def ChannelState.get_adc (s : ChannelState) : Option ℚ :=
  s.adc_data.map (fun d => s.adc_calibration d)

/-- `ChannelState::get_sens` from `src/channel_state.rs`. -/
def ChannelState.get_sens (s : ChannelState) : Option ℚ :=
  s.get_adc.map (fun adc_input => R_INNER * adc_input / (VREF_SENS - adc_input))

/-- `ChannelState::get_temperature` from `src/channel_state.rs`. -/
def ChannelState.get_temperature (s : ChannelState) : Option ℚ :=
  s.get_sens.map (fun r => s.bp r)

/-- `ChannelState::update_pid` from `src/channel_state.rs`: absent
temperature yields no output and leaves the controller untouched. -/
def ChannelState.update_pid (s : ChannelState) : Option ℚ × ChannelState :=
  match s.get_temperature with
  | none => (none, s)
  | some temperature =>
    let r := s.pid.update temperature
    (some r.1, { s with pid := r.2 })

/-- Modelled from the spec: `src/channel.rs` is declared in `main.rs` but is
not among the repository files given.  Per §2 and §4 each `Channel` owns its
`ChannelState`, its DAC handle (modelled by the last code written), the
calibration-derived `vref_meas`, and the driver power (shutdown) control that
`power_up`/`power_down` drive. -/
structure Channel where
  state : ChannelState
  dac_code : ℕ
  vref_meas : ℚ
  powered : Bool

/-- One PWM limit output: its counter resolution (`get_max_duty`) and the
last counter value written. -/
structure PwmChannel where
  duty_value : ℕ
  max_duty : ℕ
deriving DecidableEq

/-- The inner closure `set` of `Channels::set_pwm` from `src/channels.rs`:
quantize the requested duty fraction to the counter
(`((duty * max) as u16).min(max)`) and return the actually applied
fraction. -/
def PwmChannel.set (p : PwmChannel) (duty : ℚ) : ℚ × PwmChannel :=
  let value := min (natSat 65535 (duty * (p.max_duty : ℚ))) p.max_duty
  ((value : ℚ) / (p.max_duty : ℚ), { p with duty_value := value })

/-- The PWM pins that `Channels::set_pwm` accepts: `PwmPin::ISet` panics
there (i_set is no pwm pin), so the pin type of the embedding has only the
three limit pins. -/
inductive LimitPin
  | MaxIPos
  | MaxINeg
  | MaxV
deriving DecidableEq

/-- `pins::PwmPins` from `src/pins.rs`: the six limit PWM outputs. -/
structure PwmPins where
  max_v0 : PwmChannel
  max_i_pos0 : PwmChannel
  max_i_neg0 : PwmChannel
  max_v1 : PwmChannel
  max_i_pos1 : PwmChannel
  max_i_neg1 : PwmChannel
deriving DecidableEq

/-- `Channels` from `src/channels.rs`.  The STM32 auxiliary ADC is a
hardware sampler; `aux_adc` is its oracle, giving the averaged voltage that
`Channels::adc_read` would return for a channel and read target. -/
structure Channels where
  channel0 : Channel
  channel1 : Channel
  pwm : PwmPins
  aux_adc : Fin 2 → PinsAdcReadTarget → ℚ

/-- Channel selection as in the two-armed matches of `src/channels.rs`. -/
def Channels.channel (c : Channels) (ch : Fin 2) : Channel :=
  if ch = 0 then c.channel0 else c.channel1

def Channels.setChannel (c : Channels) (ch : Fin 2) (x : Channel) : Channels :=
  if ch = 0 then { c with channel0 := x } else { c with channel1 := x }

/-- `Channels::channel_state` from `src/channels.rs`, as a reader; state
writes go through `updState`. -/
def Channels.channel_state (c : Channels) (ch : Fin 2) : ChannelState :=
  (c.channel ch).state

def Channels.updState (c : Channels) (ch : Fin 2) (f : ChannelState → ChannelState) :
    Channels :=
  c.setChannel ch { c.channel ch with state := f (c.channel ch).state }

/-- `Channels::adc_read` from `src/channels.rs`: averaged sampling of one
auxiliary input, answered by the hardware oracle (the sample count only
reduces dispersion, AN4073). -/
def Channels.adc_read (c : Channels) (ch : Fin 2) (t : PinsAdcReadTarget)
    (avg_pt : ℕ) : ℚ :=
  c.aux_adc ch t

/-- `Channels::set_dac` from `src/channels.rs`: quantize the requested
voltage to a DAC code (`((voltage / DAC_OUT_V_MAX) * MAX_VALUE) as u32`),
write the code, then record and return the requested (unquantized)
voltage. -/
def Channels.set_dac (c : Channels) (ch : Fin 2) (voltage : ℚ) : ℚ × Channels :=
  let value := natSat 4294967295 (voltage / DAC_OUT_V_MAX * (ad5680.MAX_VALUE : ℚ))
  let c1 := c.setChannel ch { c.channel ch with dac_code := ad5680.set value }
  let c2 := c1.updState ch (fun s => { s with dac_value := voltage })
  (voltage, c2)

/-- `Channels::set_i` from `src/channels.rs`. -/
def Channels.set_i (c : Channels) (ch : Fin 2) (i_set : ℚ) : ℚ × Channels :=
  let i2 := max (min i_set MAX_TEC_I) (-MAX_TEC_I)
  let c1 := c.updState ch (fun s => { s with i_set := i2 })
  let negate := polaritySign (c1.channel_state ch).polarity
  let vref_meas := (c1.channel ch).vref_meas
  let center_point := vref_meas
  let voltage := negate * i2 * 10 * R_SENSE + center_point
  let r := c1.set_dac ch voltage
  (negate * (r.1 - center_point) / (10 * R_SENSE), r.2)

/-- `Channels::get_i_set` from `src/channels.rs`. -/
def Channels.get_i_set (c : Channels) (ch : Fin 2) : ℚ :=
  (c.channel_state ch).i_set

/-- `Channels::get_max_v` from `src/channels.rs`. -/
def Channels.get_max_v (c : Channels) (ch : Fin 2) : ℚ :=
  (c.channel_state ch).output_limits.max_v

/-- `Channels::get_max_i_pos` from `src/channels.rs`. -/
def Channels.get_max_i_pos (c : Channels) (ch : Fin 2) : ℚ :=
  (c.channel_state ch).output_limits.max_i_pos

/-- `Channels::get_max_i_neg` from `src/channels.rs`. -/
def Channels.get_max_i_neg (c : Channels) (ch : Fin 2) : ℚ :=
  (c.channel_state ch).output_limits.max_i_neg

/-- Modelled from the spec: `Channels::power_up` drives the per-channel
driver power control of `src/channel.rs` (not among the files given); §4.1
describes it as powering the actuator up. -/
def Channels.power_up (c : Channels) (ch : Fin 2) : Channels :=
  c.setChannel ch { c.channel ch with powered := true }

/-- Modelled from the spec: `Channels::power_down` is the fail-safe actuator
power-down of §4.1 and §7. -/
def Channels.power_down (c : Channels) (ch : Fin 2) : Channels :=
  c.setChannel ch { c.channel ch with powered := false }

/-- `Channels::poll_adc` from `src/channels.rs`.  The ADC device itself is
hardware: `data_ready` is the channel it reports ready (if any) and `data`
the raw code `read_data` returns for it. -/
def Channels.poll_adc (c : Channels) (instant : ℤ) (data_ready : Option (Fin 2))
    (data : ℕ) : Option (Fin 2) × Channels :=
  match data_ready with
  | none => (none, c)
  | some ch =>
    let st := ((c.channel ch).state.update instant data).update_pid
    let c1 := c.setChannel ch { c.channel ch with state := st.2 }
    match st.1 with
    | some pid_output =>
      if st.2.pid_engaged then
        (some ch, ((c1.set_i ch pid_output).2.power_up ch))
      else (some ch, c1)
    | none =>
      if st.2.pid_engaged then (some ch, c1.power_down ch)
      else (some ch, c1)

def Channels.getPwm (c : Channels) (ch : Fin 2) (pin : LimitPin) : PwmChannel :=
  if ch = 0 then
    match pin with
    | LimitPin.MaxIPos => c.pwm.max_i_pos0
    | LimitPin.MaxINeg => c.pwm.max_i_neg0
    | LimitPin.MaxV => c.pwm.max_v0
  else
    match pin with
    | LimitPin.MaxIPos => c.pwm.max_i_pos1
    | LimitPin.MaxINeg => c.pwm.max_i_neg1
    | LimitPin.MaxV => c.pwm.max_v1

def Channels.putPwm (c : Channels) (ch : Fin 2) (pin : LimitPin) (p : PwmChannel) :
    Channels :=
  if ch = 0 then
    match pin with
    | LimitPin.MaxIPos => { c with pwm := { c.pwm with max_i_pos0 := p } }
    | LimitPin.MaxINeg => { c with pwm := { c.pwm with max_i_neg0 := p } }
    | LimitPin.MaxV => { c with pwm := { c.pwm with max_v0 := p } }
  else
    match pin with
    | LimitPin.MaxIPos => { c with pwm := { c.pwm with max_i_pos1 := p } }
    | LimitPin.MaxINeg => { c with pwm := { c.pwm with max_i_neg1 := p } }
    | LimitPin.MaxV => { c with pwm := { c.pwm with max_v1 := p } }

/-- `Channels::set_pwm` from `src/channels.rs`, on the three limit pins. -/
def Channels.set_pwm (c : Channels) (ch : Fin 2) (pin : LimitPin) (duty : ℚ) :
    ℚ × Channels :=
  let r := (c.getPwm ch pin).set duty
  (r.1, c.putPwm ch pin r.2)

/-- `Channels::set_max_v` from `src/channels.rs`. -/
def Channels.set_max_v (c : Channels) (ch : Fin 2) (max_v : ℚ) : ℚ × ℚ × Channels :=
  let m := max (min max_v MAX_TEC_V) 0
  let c1 := c.updState ch
    (fun s => { s with output_limits := { s.output_limits with max_v := m } })
  let v_maxv := m / 4
  let duty := v_maxv / CPU_ADC_VREF
  let r := c1.set_pwm ch LimitPin.MaxV duty
  (4 * (r.1 * CPU_ADC_VREF), MAX_TEC_V, r.2)

/-- The pin choice of `Channels::set_max_i_pos` from `src/channels.rs`: the
positive limit drives `MaxIPos` under `Normal` and `MaxINeg` under
`Reversed` polarity. -/
def posLimitPin : Polarity → LimitPin
  | Polarity.Normal => LimitPin.MaxIPos
  | Polarity.Reversed => LimitPin.MaxINeg

/-- The pin choice of `Channels::set_max_i_neg` from `src/channels.rs`: the
negative limit drives `MaxINeg` under `Normal` and `MaxIPos` under
`Reversed` polarity. -/
def negLimitPin : Polarity → LimitPin
  | Polarity.Normal => LimitPin.MaxINeg
  | Polarity.Reversed => LimitPin.MaxIPos

/-- `Channels::set_max_i_pos` from `src/channels.rs`: under `Reversed`
polarity the positive limit drives the `MaxINeg` PWM pin. -/
def Channels.set_max_i_pos (c : Channels) (ch : Fin 2) (max_i_pos : ℚ) :
    ℚ × ℚ × Channels :=
  let pin := posLimitPin (c.channel_state ch).polarity
  let m := max (min max_i_pos MAX_TEC_I) 0
  let c1 := c.updState ch
    (fun s => { s with output_limits := { s.output_limits with max_i_pos := m } })
  let v_maxip := 10 * (m * R_SENSE)
  let duty := v_maxip / CPU_ADC_VREF
  let r := c1.set_pwm ch pin duty
  ((r.1 * CPU_ADC_VREF) / 10 / R_SENSE, MAX_TEC_I, r.2)

/-- `Channels::set_max_i_neg` from `src/channels.rs`: under `Reversed`
polarity the negative limit drives the `MaxIPos` PWM pin. -/
def Channels.set_max_i_neg (c : Channels) (ch : Fin 2) (max_i_neg : ℚ) :
    ℚ × ℚ × Channels :=
  let pin := negLimitPin (c.channel_state ch).polarity
  let m := max (min max_i_neg MAX_TEC_I) 0
  let c1 := c.updState ch
    (fun s => { s with output_limits := { s.output_limits with max_i_neg := m } })
  let v_maxin := 10 * (m * R_SENSE)
  let duty := v_maxin / CPU_ADC_VREF
  let r := c1.set_pwm ch pin duty
  ((r.1 * CPU_ADC_VREF) / 10 / R_SENSE, MAX_TEC_I, r.2)

/-- `Channels::set_polarity` from `src/channels.rs`. -/
def Channels.set_polarity (c : Channels) (ch : Fin 2) (polarity : Polarity) :
    Channels :=
  if (c.channel_state ch).polarity ≠ polarity then
    let i_set := (c.channel_state ch).i_set
    let max_i_pos := c.get_max_i_pos ch
    let max_i_neg := c.get_max_i_neg ch
    let c1 := c.updState ch (fun s => { s with polarity := polarity })
    let c2 := (c1.set_i ch i_set).2
    let c3 := (c2.set_max_i_pos ch max_i_pos).2.2
    ((c3.set_max_i_neg ch max_i_neg).2.2)
  else c

/-- `Channels::get_tec_i` from `src/channels.rs`: differential
`ITec - VRef` reading over the 0.4 Ω current-sense conversion, negated for
`Reversed` polarity. -/
def Channels.get_tec_i (c : Channels) (ch : Fin 2) : ℚ :=
  let tec_i := (c.adc_read ch PinsAdcReadTarget.ITec 16
      - c.adc_read ch PinsAdcReadTarget.VRef 16) / (0.4 : ℚ)
  match (c.channel_state ch).polarity with
  | Polarity.Normal => tec_i
  | Polarity.Reversed => -tec_i

/-- `Channels::get_tec_v` from `src/channels.rs`: scaled offset-corrected
auxiliary sample, with no polarity correction in the source. -/
def Channels.get_tec_v (c : Channels) (ch : Fin 2) : ℚ :=
  (c.adc_read ch PinsAdcReadTarget.VTec 16 - (1.5 : ℚ)) * 4.0

/-- Replace only the polarity of one channel (used to state how operations
do or do not depend on it). -/
def Channels.withPolarity (c : Channels) (ch : Fin 2) (p : Polarity) : Channels :=
  c.updState ch (fun s => { s with polarity := p })

/-- The running state of `Channels::calibrate_dac_value` from
`src/channels.rs`: the best DAC code so far (`start_value`, which also
starts the next sweep), the best error so far, and the stored
reference-voltage estimate. -/
structure CalibState where
  start_value : ℕ
  best_error : ℚ
  vref_meas : ℚ
deriving DecidableEq

/-- The step sizes of `Channels::calibrate_dac_value`: `(5..18).rev()`,
i.e. exponents 17 down to 5. -/
def calibSteps : List ℕ := (List.range' 5 13).reverse

/-- The candidate codes of `(start_value..=ad5680::MAX_VALUE).step_by(1 << step)`
in `Channels::calibrate_dac_value`: the arithmetic progression from `start`
with step `delta` of all codes at most `ad5680::MAX_VALUE`. -/
def candidates (start delta : ℕ) : List ℕ :=
  if start ≤ ad5680.MAX_VALUE then
    (List.range ((ad5680.MAX_VALUE - start) / delta + 1)).map (fun k => start + k * delta)
  else []

/-- The inner sweep loop of `Channels::calibrate_dac_value` over one list of
candidate codes: per candidate the code is written to the DAC, the settled
feedback voltage is read back (64-sample average) — here the oracle
`fb code` — and the loop breaks on the first negative error, else keeps a
strictly improving candidate.  Translated with the `break` of the source. -/
def sweepGo (target : ℚ) (fb : ℕ → ℚ) : List ℕ → CalibState → CalibState
  | [], s => s
  | value :: rest, s =>
    let error := target - fb value
    if error < 0 then s
    else if error < s.best_error then
      sweepGo target fb rest
        { start_value := value, best_error := error,
          vref_meas := (value : ℚ) / (ad5680.MAX_VALUE : ℚ) * DAC_OUT_V_MAX }
    else sweepGo target fb rest s

/-- `Channels::calibrate_dac_value` from `src/channels.rs`, with the two
hardware readings as oracles: `target` is the 50-sample averaged reference
voltage measured first, and `fb code` the settled DAC feedback reading for a
written code.  Returns the final search state together with the DAC code and
voltage finally written by the closing `set_dac(0 V)` reset. -/
def calibrate_dac_value (target : ℚ) (fb : ℕ → ℚ) (vref0 : ℚ) :
    CalibState × ℕ × ℚ :=
  let init : CalibState := { start_value := 1, best_error := 100, vref_meas := vref0 }
  let s := calibSteps.foldl
    (fun s step => sweepGo target fb (candidates s.start_value (2 ^ step)) s) init
  (s, 0, 0)

/-- The candidate-code enumeration in the words of the spec (§4.2): sweep
DAC codes starting at `start`, incrementing by `delta`, up to the maximum
code.  Empty when the step is degenerate or the start is past full scale. -/
def specChain (delta : ℕ) (start : ℕ) : List ℕ :=
  if h : 0 < delta ∧ start ≤ ad5680.MAX_VALUE then
    start :: specChain delta (start + delta)
  else []
termination_by ad5680.MAX_VALUE + 1 - start
decreasing_by omega

/-- One candidate visit in the words of the spec (§4.2): the best code and
the stored `vref_meas` are updated exactly when the error is nonnegative and
strictly smaller than the best error seen so far; the new `vref_meas` is the
nominal output voltage of the recorded code. -/
def calibUpdate (target : ℚ) (fb : ℕ → ℚ) (s : CalibState) (value : ℕ) : CalibState :=
  let error := target - fb value
  if 0 ≤ error ∧ error < s.best_error then
    { start_value := value, best_error := error,
      vref_meas := (value : ℚ) / (ad5680.MAX_VALUE : ℚ) * DAC_OUT_V_MAX }
  else s

/-- One step-size sweep in the words of the spec (§4.2): visit the candidate
chain starting at the best code found so far, but only the longest prefix on
which the error stays nonnegative (the sweep stops immediately at the first
negative error), folding the best-candidate update over it. -/
def sweepSpec (target : ℚ) (fb : ℕ → ℚ) (step : ℕ) (s : CalibState) : CalibState :=
  ((specChain (2 ^ step) s.start_value).takeWhile
    (fun v => decide (0 ≤ target - fb v))).foldl (calibUpdate target fb) s

/-- The calibration routine in the words of the spec (§4.2): fold the
per-step-size sweep over the decreasing step sizes, then reset the DAC to
code 0 (voltage 0). -/
def calibrateSpec (target : ℚ) (fb : ℕ → ℚ) (vref0 : ℚ) : CalibState × ℕ × ℚ :=
  (calibSteps.foldl (fun s step => sweepSpec target fb step s)
    { start_value := 1, best_error := 100, vref_meas := vref0 }, 0, 0)

/-- A concrete auxiliary-ADC oracle for witnesses: 1.5 V reference, 2 V on
the current sense, 2.5 V on the voltage sense. -/
def sampleAux : Fin 2 → PinsAdcReadTarget → ℚ := fun ch t =>
  match t with
  | PinsAdcReadTarget.VRef => 3 / 2
  | PinsAdcReadTarget.DacVfb => 0
  | PinsAdcReadTarget.ITec => 2
  | PinsAdcReadTarget.VTec => 5 / 2

/-- A concrete channel state for witnesses: PID engaged, `Normal` polarity,
default controller. -/
def sampleState : ChannelState :=
  { adc_data := none
    adc_calibration := fun d => (d : ℚ) / 1000
    adc_time := 0
    adc_interval := 100
    center := CenterPoint.VRef
    dac_value := 0
    i_set := 0
    output_limits := { max_v := 0, max_i_pos := 0, max_i_neg := 0 }
    pid_engaged := true
    pid := pid.Controller.new pid.Parameters.default
    bp := fun r => r
    polarity := Polarity.Normal }

/-- A concrete channel for witnesses with a 1.5 V measured reference. -/
def sampleChannel : Channel :=
  { state := sampleState, dac_code := 0, vref_meas := 3 / 2, powered := true }

/-- A concrete PWM output with a 100-count counter. -/
def samplePwm : PwmChannel := { duty_value := 0, max_duty := 100 }

/-- A concrete `Channels` value for witnesses. -/
def sampleChannels : Channels :=
  { channel0 := sampleChannel
    channel1 := sampleChannel
    pwm := { max_v0 := samplePwm, max_i_pos0 := samplePwm, max_i_neg0 := samplePwm,
             max_v1 := samplePwm, max_i_pos1 := samplePwm, max_i_neg1 := samplePwm }
    aux_adc := sampleAux }

/-- `sampleChannels` with channel 0 reversed, identical otherwise. -/
def sampleChannelsRev : Channels :=
  sampleChannels.withPolarity 0 Polarity.Reversed

end Thermostat

namespace Thermostat

theorem rclamp_eq_min_max (x lo hi : ℚ) (h : lo ≤ hi) :
    rclamp x lo hi = min (max x lo) hi := by
  unfold rclamp
  rcases lt_or_le x lo with hx | hx
  · rw [if_pos hx, max_eq_right hx.le, min_eq_left h]
  · rw [if_neg (not_lt.mpr hx), max_eq_left hx]
    rcases le_or_lt x hi with hx2 | hx2
    · rw [if_neg (not_lt.mpr hx2), min_eq_left hx2]
    · rw [if_pos hx2, min_eq_right hx2.le]

theorem rclamp_mem (x lo hi : ℚ) (h : lo ≤ hi) :
    lo ≤ rclamp x lo hi ∧ rclamp x lo hi ≤ hi := by
  unfold rclamp
  rcases lt_or_le x lo with hx | hx
  · simp [hx, h, not_lt.mpr (le_of_lt hx)]
  · rw [if_neg (not_lt.mpr hx)]
    rcases le_or_lt x hi with hx2 | hx2
    · rw [if_neg (not_lt.mpr hx2)]; exact ⟨hx, hx2⟩
    · rw [if_pos hx2]; exact ⟨h, le_refl hi⟩

theorem rclamp_idem (x lo hi : ℚ) (h : lo ≤ hi) :
    rclamp (rclamp x lo hi) lo hi = rclamp x lo hi := by
  obtain ⟨h1, h2⟩ := rclamp_mem x lo hi h
  conv_lhs => rw [rclamp]
  rw [if_neg (not_lt.mpr h1), if_neg (not_lt.mpr h2)]

/-- Claim C3: for every controller state and input `x0`, `Controller.update`
returns `clamp(y1 − ki·target + x0·(kp+ki+kd) − x1·(kp+2·kd) + x2·kd,
output_min, output_max)`, a value lying in `[output_min, output_max]`, and
afterwards `x2` holds the old `x1`, `x1` holds `x0`, and `y1` holds the
returned output (gains, bounds and target are untouched). -/
theorem pid_update_formula (c : pid.Controller) (x0 : ℚ)
    (h : c.parameters.output_min ≤ c.parameters.output_max) :
    (c.update x0).1 =
      rclamp (c.y1 - c.parameters.ki * c.target
          + x0 * (c.parameters.kp + c.parameters.ki + c.parameters.kd)
          - c.x1 * (c.parameters.kp + 2 * c.parameters.kd)
          + c.x2 * c.parameters.kd)
        c.parameters.output_min c.parameters.output_max
    ∧ c.parameters.output_min ≤ (c.update x0).1
    ∧ (c.update x0).1 ≤ c.parameters.output_max
    ∧ (c.update x0).2.x2 = c.x1
    ∧ (c.update x0).2.x1 = x0
    ∧ (c.update x0).2.y1 = (c.update x0).1
    ∧ (c.update x0).2.parameters = c.parameters
    ∧ (c.update x0).2.target = c.target := by
  obtain ⟨hlo, hhi⟩ := rclamp_mem
    (c.y1 - c.parameters.ki * c.target
      + x0 * (c.parameters.kp + c.parameters.ki + c.parameters.kd)
      - c.x1 * (c.parameters.kp + 2 * c.parameters.kd)
      + c.x2 * c.parameters.kd)
    c.parameters.output_min c.parameters.output_max h
  refine ⟨rfl, hlo, hhi, rfl, rfl, rfl, rfl, rfl⟩

/-- Witness for C3: the theorem applied to a freshly constructed controller
with default parameters and input 1. -/
theorem pid_update_formula_witness :
    ((pid.Controller.new pid.Parameters.default).parameters.output_min ≤
      (pid.Controller.new pid.Parameters.default).parameters.output_max)
    ∧ ((pid.Controller.new pid.Parameters.default).update 1).1 =
        rclamp ((pid.Controller.new pid.Parameters.default).y1
            - (pid.Controller.new pid.Parameters.default).parameters.ki *
              (pid.Controller.new pid.Parameters.default).target
            + 1 * ((pid.Controller.new pid.Parameters.default).parameters.kp
              + (pid.Controller.new pid.Parameters.default).parameters.ki
              + (pid.Controller.new pid.Parameters.default).parameters.kd)
            - (pid.Controller.new pid.Parameters.default).x1 *
              ((pid.Controller.new pid.Parameters.default).parameters.kp
                + 2 * (pid.Controller.new pid.Parameters.default).parameters.kd)
            + (pid.Controller.new pid.Parameters.default).x2 *
              (pid.Controller.new pid.Parameters.default).parameters.kd)
          (pid.Controller.new pid.Parameters.default).parameters.output_min
          (pid.Controller.new pid.Parameters.default).parameters.output_max :=
  ⟨by decide, (pid_update_formula (pid.Controller.new pid.Parameters.default) 1 (by decide)).1⟩

theorem runController_zero_gains_aux (pmin pmax : ℚ) (h : pmin ≤ pmax)
    (inputs : List ℚ) :
    ∀ c : pid.Controller,
      c.parameters = { kp := 0, ki := 0, kd := 0, output_min := pmin, output_max := pmax } →
      rclamp c.y1 pmin pmax = rclamp 0 pmin pmax →
      ∀ y ∈ (pid.runController c inputs).2, y = rclamp 0 pmin pmax := by
  induction inputs with
  | nil => intro c _ _ y hy; simp [pid.runController] at hy
  | cons x xs ih =>
    intro c hp hy1 y hy
    have hout : (c.update x).1 = rclamp 0 pmin pmax := by
      simp only [pid.Controller.update, hp]
      simpa using hy1
    simp only [pid.runController, List.mem_cons] at hy
    rcases hy with hy | hy
    · rw [hy, hout]
    · refine ih (c.update x).2 ?_ ?_ y hy
      · simp [pid.Controller.update, hp]
      · have : (c.update x).2.y1 = (c.update x).1 := rfl
        rw [this, hout, rclamp_idem 0 pmin pmax h]

/-- Claim C9: a controller with all gains zero, freshly constructed, outputs
`clamp(0, output_min, output_max)` on every update, for every input sequence;
and with `output_min = output_max = 0` every output is exactly 0. -/
theorem pid_zero_gains (pmin pmax : ℚ) (h : pmin ≤ pmax) (inputs : List ℚ) :
    (∀ y ∈ (pid.runController
        (pid.Controller.new
          { kp := 0, ki := 0, kd := 0, output_min := pmin, output_max := pmax })
        inputs).2, y = rclamp 0 pmin pmax)
    ∧ (pmin = 0 → pmax = 0 →
        ∀ y ∈ (pid.runController
            (pid.Controller.new
              { kp := 0, ki := 0, kd := 0, output_min := pmin, output_max := pmax })
            inputs).2, y = 0) := by
  have main := runController_zero_gains_aux pmin pmax h inputs
    (pid.Controller.new
      { kp := 0, ki := 0, kd := 0, output_min := pmin, output_max := pmax })
    rfl rfl
  refine ⟨main, ?_⟩
  intro h0 h1 y hy
  have := main y hy
  rw [this, h0, h1]
  simp [rclamp]

theorem channel_setChannel (c : Channels) (ch : Fin 2) (x : Channel) :
    (c.setChannel ch x).channel ch = x := by
  unfold Channels.setChannel Channels.channel
  by_cases h : ch = 0 <;> simp [h]

theorem setChannel_setChannel (c : Channels) (ch : Fin 2) (x y : Channel) :
    (c.setChannel ch x).setChannel ch y = c.setChannel ch y := by
  unfold Channels.setChannel
  by_cases h : ch = 0 <;> simp [h]

theorem aux_adc_setChannel (c : Channels) (ch : Fin 2) (x : Channel) :
    (c.setChannel ch x).aux_adc = c.aux_adc := by
  unfold Channels.setChannel
  by_cases h : ch = 0 <;> simp [h]

theorem pwm_setChannel (c : Channels) (ch : Fin 2) (x : Channel) :
    (c.setChannel ch x).pwm = c.pwm := by
  unfold Channels.setChannel
  by_cases h : ch = 0 <;> simp [h]

theorem channel_putPwm (c : Channels) (ch ch2 : Fin 2) (pin : LimitPin)
    (q : PwmChannel) : (c.putPwm ch2 pin q).channel ch = c.channel ch := by
  unfold Channels.putPwm Channels.channel
  by_cases h : ch2 = 0 <;> cases pin <;> by_cases h2 : ch = 0 <;> simp [h, h2]

theorem getPwm_setChannel (c : Channels) (ch ch2 : Fin 2) (x : Channel)
    (pin : LimitPin) : (c.setChannel ch2 x).getPwm ch pin = c.getPwm ch pin := by
  unfold Channels.getPwm
  rw [pwm_setChannel]

theorem getPwm_putPwm_same (c : Channels) (ch : Fin 2) (pin : LimitPin)
    (q : PwmChannel) : (c.putPwm ch pin q).getPwm ch pin = q := by
  unfold Channels.putPwm Channels.getPwm
  by_cases h : ch = 0 <;> cases pin <;> simp [h]

theorem getPwm_putPwm_ne (c : Channels) (ch : Fin 2) (pin pin2 : LimitPin)
    (q : PwmChannel) (h : pin ≠ pin2) :
    (c.putPwm ch pin q).getPwm ch pin2 = c.getPwm ch pin2 := by
  unfold Channels.putPwm Channels.getPwm
  by_cases hc : ch = 0 <;> cases pin <;> cases pin2 <;> simp_all

/-- `Channels.set_i` in closed form: the clamped current is returned as-is,
and the serviced channel gets the clamped `i_set`, the unquantized target
voltage as `dac_value`, and the quantized code on the DAC. -/
theorem set_i_unfold (c : Channels) (ch : Fin 2) (i : ℚ) :
    c.set_i ch i =
      (max (min i MAX_TEC_I) (-MAX_TEC_I),
        c.setChannel ch
          { state := { (c.channel ch).state with
              i_set := max (min i MAX_TEC_I) (-MAX_TEC_I),
              dac_value := polaritySign (c.channel ch).state.polarity *
                  (max (min i MAX_TEC_I) (-MAX_TEC_I)) * 10 * R_SENSE
                + (c.channel ch).vref_meas }
            dac_code := ad5680.set (natSat 4294967295
              ((polaritySign (c.channel ch).state.polarity *
                  (max (min i MAX_TEC_I) (-MAX_TEC_I)) * 10 * R_SENSE
                + (c.channel ch).vref_meas) / DAC_OUT_V_MAX * (ad5680.MAX_VALUE : ℚ)))
            vref_meas := (c.channel ch).vref_meas
            powered := (c.channel ch).powered }) := by
  unfold Channels.set_i Channels.set_dac Channels.updState Channels.channel_state
  simp only [channel_setChannel, setChannel_setChannel]
  refine Prod.ext ?_ ?_
  · show polaritySign (c.channel ch).state.polarity *
        (polaritySign (c.channel ch).state.polarity *
            (max (min i MAX_TEC_I) (-MAX_TEC_I)) * 10 * R_SENSE
          + (c.channel ch).vref_meas - (c.channel ch).vref_meas) / (10 * R_SENSE)
      = max (min i MAX_TEC_I) (-MAX_TEC_I)
    cases (c.channel ch).state.polarity <;>
      · rw [polaritySign, R_SENSE]
        norm_num
        ring_nf
  · rfl

/-- Claim C1: for every channel and requested current (also past the device
limit), after `set_i` the stored `i_set` and the returned current both have
magnitude at most `MAX_TEC_I`; and `set_i` is idempotent — an immediately
repeated identical call returns the same current and leaves the whole
engine state unchanged. -/
theorem set_i_saturates_idempotent (c : Channels) (ch : Fin 2) (i : ℚ) :
    |((c.set_i ch i).2.channel_state ch).i_set| ≤ MAX_TEC_I
    ∧ |(c.set_i ch i).1| ≤ MAX_TEC_I
    ∧ (c.set_i ch i).2.set_i ch i = ((c.set_i ch i).1, (c.set_i ch i).2) := by
  have hclamp : |max (min i MAX_TEC_I) (-MAX_TEC_I)| ≤ MAX_TEC_I := by
    rw [abs_le]
    refine ⟨le_max_right _ _, max_le (min_le_right _ _) ?_⟩
    rw [MAX_TEC_I]; norm_num
  refine ⟨?_, ?_, ?_⟩
  · rw [set_i_unfold]
    simpa [Channels.channel_state, channel_setChannel] using hclamp
  · rw [set_i_unfold]
    exact hclamp
  · simp only [set_i_unfold, channel_setChannel, setChannel_setChannel]

/-- `Channels.set_max_i_pos` in closed form. -/
theorem set_max_i_pos_unfold (c : Channels) (ch : Fin 2) (v : ℚ) :
    c.set_max_i_pos ch v =
      (((c.getPwm ch (posLimitPin (c.channel_state ch).polarity)).set
          (10 * (max (min v MAX_TEC_I) 0 * R_SENSE) / CPU_ADC_VREF)).1
          * CPU_ADC_VREF / 10 / R_SENSE,
        MAX_TEC_I,
        (c.setChannel ch { c.channel ch with state := { (c.channel ch).state with
            output_limits := { (c.channel ch).state.output_limits with
              max_i_pos := max (min v MAX_TEC_I) 0 } } }).putPwm ch
          (posLimitPin (c.channel_state ch).polarity)
          (((c.getPwm ch (posLimitPin (c.channel_state ch).polarity)).set
            (10 * (max (min v MAX_TEC_I) 0 * R_SENSE) / CPU_ADC_VREF)).2)) := by
  unfold Channels.set_max_i_pos Channels.set_pwm Channels.updState Channels.channel_state
  simp only [channel_setChannel, getPwm_setChannel]

/-- `Channels.set_max_i_neg` in closed form. -/
theorem set_max_i_neg_unfold (c : Channels) (ch : Fin 2) (v : ℚ) :
    c.set_max_i_neg ch v =
      (((c.getPwm ch (negLimitPin (c.channel_state ch).polarity)).set
          (10 * (max (min v MAX_TEC_I) 0 * R_SENSE) / CPU_ADC_VREF)).1
          * CPU_ADC_VREF / 10 / R_SENSE,
        MAX_TEC_I,
        (c.setChannel ch { c.channel ch with state := { (c.channel ch).state with
            output_limits := { (c.channel ch).state.output_limits with
              max_i_neg := max (min v MAX_TEC_I) 0 } } }).putPwm ch
          (negLimitPin (c.channel_state ch).polarity)
          (((c.getPwm ch (negLimitPin (c.channel_state ch).polarity)).set
            (10 * (max (min v MAX_TEC_I) 0 * R_SENSE) / CPU_ADC_VREF)).2)) := by
  unfold Channels.set_max_i_neg Channels.set_pwm Channels.updState Channels.channel_state
  simp only [channel_setChannel, getPwm_setChannel]

/-- Claim C6: `set_polarity(channel, p)` is a no-op when `p` equals the
stored polarity; otherwise it stores `p` and re-applies the current setpoint
and both current limits under the new sign convention — the setpoint is
re-clamped and re-written through the DAC with the new sign, both current
limits are re-clamped and re-written through PWM, the voltage limit is left
alone, and the positive/negative limit PWM pins are swapped exactly when the
polarity is `Reversed`. -/
theorem set_polarity_reapplies (c : Channels) (ch : Fin 2) (p : Polarity) :
    ((c.channel_state ch).polarity = p → c.set_polarity ch p = c)
    ∧ ((c.channel_state ch).polarity ≠ p →
        ((c.set_polarity ch p).channel_state ch).polarity = p
        ∧ ((c.set_polarity ch p).channel_state ch).i_set
            = max (min (c.channel_state ch).i_set MAX_TEC_I) (-MAX_TEC_I)
        ∧ ((c.set_polarity ch p).channel_state ch).dac_value
            = polaritySign p *
                (max (min (c.channel_state ch).i_set MAX_TEC_I) (-MAX_TEC_I))
                * 10 * R_SENSE + (c.channel ch).vref_meas
        ∧ ((c.set_polarity ch p).channel_state ch).output_limits.max_v
            = (c.channel_state ch).output_limits.max_v
        ∧ ((c.set_polarity ch p).channel_state ch).output_limits.max_i_pos
            = max (min (c.channel_state ch).output_limits.max_i_pos MAX_TEC_I) 0
        ∧ ((c.set_polarity ch p).channel_state ch).output_limits.max_i_neg
            = max (min (c.channel_state ch).output_limits.max_i_neg MAX_TEC_I) 0
        ∧ (c.set_polarity ch p).getPwm ch (posLimitPin p)
            = ((c.getPwm ch (posLimitPin p)).set
                (10 * (max (min (c.channel_state ch).output_limits.max_i_pos MAX_TEC_I) 0
                  * R_SENSE) / CPU_ADC_VREF)).2
        ∧ (c.set_polarity ch p).getPwm ch (negLimitPin p)
            = ((c.getPwm ch (negLimitPin p)).set
                (10 * (max (min (c.channel_state ch).output_limits.max_i_neg MAX_TEC_I) 0
                  * R_SENSE) / CPU_ADC_VREF)).2)
    ∧ posLimitPin Polarity.Reversed = LimitPin.MaxINeg
    ∧ negLimitPin Polarity.Reversed = LimitPin.MaxIPos
    ∧ posLimitPin Polarity.Normal = LimitPin.MaxIPos
    ∧ negLimitPin Polarity.Normal = LimitPin.MaxINeg := by
  refine ⟨?_, ?_, rfl, rfl, rfl, rfl⟩
  · intro he
    unfold Channels.set_polarity
    rw [if_neg]
    simp [he]
  · intro hne
    have hpins : negLimitPin p ≠ posLimitPin p := by cases p <;> decide
    have e1 : c.set_polarity ch p
        = ((((c.updState ch (fun s => { s with polarity := p })).set_i ch
              (c.channel_state ch).i_set).2.set_max_i_pos ch
              (c.get_max_i_pos ch)).2.2.set_max_i_neg ch
              (c.get_max_i_neg ch)).2.2 := by
      unfold Channels.set_polarity
      rw [if_pos hne]
    rw [e1]
    rw [set_i_unfold]
    simp only [Channels.updState, channel_setChannel, setChannel_setChannel,
      Channels.channel_state, Channels.get_max_i_pos, Channels.get_max_i_neg]
    rw [set_max_i_pos_unfold]
    simp only [Channels.channel_state, channel_setChannel, setChannel_setChannel,
      getPwm_setChannel]
    rw [set_max_i_neg_unfold]
    have hpins2 : posLimitPin p ≠ negLimitPin p := by cases p <;> decide
    have hq1 : ∀ (d : Channels) (q : PwmChannel),
        (d.putPwm ch (posLimitPin p) q).getPwm ch (negLimitPin p)
          = d.getPwm ch (negLimitPin p) :=
      fun d q => getPwm_putPwm_ne d ch _ _ q hpins2
    have hq2 : ∀ (d : Channels) (q : PwmChannel),
        (d.putPwm ch (negLimitPin p) q).getPwm ch (posLimitPin p)
          = d.getPwm ch (posLimitPin p) :=
      fun d q => getPwm_putPwm_ne d ch _ _ q hpins
    simp only [Channels.channel_state, channel_putPwm, channel_setChannel,
      setChannel_setChannel, getPwm_setChannel, getPwm_putPwm_same, hq1, hq2]
    simp

/-- Claim C5 (amended): for every channel and requested current, `set_i`
writes the DAC code quantized to the code width, but records the unquantized
target voltage `sign·current·gain·R_sense + center_voltage` in state and
returns the current obtained by inverting that recorded voltage — which is
exactly the clamped request, so the return value does not reflect the DAC
quantization of the written code. -/
theorem set_i_quantization (c : Channels) (ch : Fin 2) (i : ℚ) :
    ((c.set_i ch i).2.channel ch).dac_code
      = ad5680.set (natSat 4294967295
          ((polaritySign (c.channel ch).state.polarity *
              (max (min i MAX_TEC_I) (-MAX_TEC_I)) * 10 * R_SENSE
            + (c.channel ch).vref_meas) / DAC_OUT_V_MAX * (ad5680.MAX_VALUE : ℚ)))
    ∧ ((c.set_i ch i).2.channel ch).state.dac_value
      = polaritySign (c.channel ch).state.polarity *
          (max (min i MAX_TEC_I) (-MAX_TEC_I)) * 10 * R_SENSE
        + (c.channel ch).vref_meas
    ∧ (c.set_i ch i).1 = max (min i MAX_TEC_I) (-MAX_TEC_I) := by
  refine ⟨?_, ?_, ?_⟩ <;> rw [set_i_unfold] <;> simp [channel_setChannel]

/-- Claim C5 as stated is false: on channel 0 of `sampleChannels` (measured
reference 1.5 V, polarity `Normal`), requesting 0.1 A returns exactly the
clamped request 1/10 A, while inverting the nominal voltage of the quantized
DAC code 135440 written by the call gives the strictly different current
8737/87381 A — the return value does not reflect the DAC quantization. -/
theorem set_i_quantized_return_cex :
    (sampleChannels.set_i 0 (1 / 10)).1 = 1 / 10
    ∧ ((sampleChannels.set_i 0 (1 / 10)).2.channel 0).dac_code = 135440
    ∧ ¬ ((sampleChannels.set_i 0 (1 / 10)).1 =
        polaritySign (sampleChannels.channel 0).state.polarity *
          ((((sampleChannels.set_i 0 (1 / 10)).2.channel 0).dac_code : ℚ)
              / (ad5680.MAX_VALUE : ℚ) * DAC_OUT_V_MAX
            - (sampleChannels.channel 0).vref_meas) / (10 * R_SENSE)) := by
  have hch : sampleChannels.channel 0 = sampleChannel := rfl
  have h1 : (sampleChannels.set_i 0 (1 / 10)).1 = 1 / 10 := by
    rw [set_i_unfold, MAX_TEC_I]
    norm_num
  have h2 : ((sampleChannels.set_i 0 (1 / 10)).2.channel 0).dac_code = 135440 := by
    rw [set_i_unfold, channel_setChannel]
    show ad5680.set (natSat 4294967295
        ((polaritySign (sampleChannels.channel 0).state.polarity *
            (max (min (1 / 10) MAX_TEC_I) (-MAX_TEC_I)) * 10 * R_SENSE
          + (sampleChannels.channel 0).vref_meas) / DAC_OUT_V_MAX
          * (ad5680.MAX_VALUE : ℚ))) = 135440
    rw [hch]
    show ad5680.set (natSat 4294967295
        ((polaritySign Polarity.Normal * (max (min (1 / 10) MAX_TEC_I) (-MAX_TEC_I))
            * 10 * R_SENSE + 3 / 2) / DAC_OUT_V_MAX * (ad5680.MAX_VALUE : ℚ))) = 135440
    rw [ad5680.set, natSat, polaritySign, MAX_TEC_I, R_SENSE, DAC_OUT_V_MAX,
      ad5680.MAX_VALUE]
    norm_num [Int.floor_eq_iff]
    rfl
  refine ⟨h1, h2, ?_⟩
  rw [h1, h2, hch]
  show ¬ ((1 / 10 : ℚ) = polaritySign Polarity.Normal *
      ((135440 : ℚ) / (ad5680.MAX_VALUE : ℚ) * DAC_OUT_V_MAX - 3 / 2) / (10 * R_SENSE))
  rw [polaritySign, R_SENSE, DAC_OUT_V_MAX, ad5680.MAX_VALUE]
  norm_num

/-- Claim C7 (amended): for every channel, `get_tec_i` derives the actuator
current as the differential reading `(ITec − VRef) / 0.4 Ω` corrected by the
polarity sign, while `get_tec_v` returns the scaled offset-corrected sample
`(VTec − 1.5 V) · 4` for any polarity — the voltage reading, unlike the
current reading, is not polarity-corrected in the source. -/
theorem get_tec_readings (c : Channels) (ch : Fin 2) :
    c.get_tec_i ch = polaritySign (c.channel_state ch).polarity *
        ((c.aux_adc ch PinsAdcReadTarget.ITec - c.aux_adc ch PinsAdcReadTarget.VRef)
          / (0.4 : ℚ))
    ∧ c.get_tec_v ch = (c.aux_adc ch PinsAdcReadTarget.VTec - (1.5 : ℚ)) * 4
    ∧ (∀ p : Polarity, (c.withPolarity ch p).get_tec_v ch = c.get_tec_v ch)
    ∧ (∀ p : Polarity, (c.withPolarity ch p).get_tec_i ch
        = polaritySign p * ((c.aux_adc ch PinsAdcReadTarget.ITec
            - c.aux_adc ch PinsAdcReadTarget.VRef) / (0.4 : ℚ))) := by
  refine ⟨?_, ?_, ?_, ?_⟩
  · unfold Channels.get_tec_i Channels.adc_read
    cases (c.channel_state ch).polarity <;> simp [polaritySign]
  · unfold Channels.get_tec_v Channels.adc_read
    norm_num
  · intro p
    unfold Channels.get_tec_v Channels.adc_read Channels.withPolarity Channels.updState
    rw [aux_adc_setChannel]
  · intro p
    unfold Channels.get_tec_i Channels.adc_read Channels.withPolarity Channels.updState
      Channels.channel_state
    rw [aux_adc_setChannel, channel_setChannel]
    cases p <;> simp [polaritySign]

/-- Claim C7 as stated is false for the voltage reading: with a 2.5 V `VTec`
sample on channel 0, `get_tec_v` returns 4 V both under `Normal` and under
`Reversed` polarity, so the `Reversed` result is not the polarity-corrected
negation of the `Normal` one. -/
theorem get_tec_v_polarity_cex :
    sampleChannels.get_tec_v 0 = 4
    ∧ sampleChannelsRev.get_tec_v 0 = 4
    ∧ ¬ (sampleChannelsRev.get_tec_v 0 = -(sampleChannels.get_tec_v 0)) := by
  have hn : sampleChannels.get_tec_v 0 = 4 := by
    unfold Channels.get_tec_v Channels.adc_read sampleChannels sampleAux
    norm_num
  have hr : sampleChannelsRev.get_tec_v 0 = 4 := by
    unfold sampleChannelsRev Channels.get_tec_v Channels.adc_read Channels.withPolarity
      Channels.updState
    rw [aux_adc_setChannel]
    unfold sampleChannels sampleAux
    norm_num
  refine ⟨hn, hr, ?_⟩
  rw [hn, hr]
  norm_num

/-- Claim C2: whenever `poll_adc` services a channel whose raw ADC code is
the sentinel `2^24 − 1` while that channel has `pid_engaged`, afterwards the
channel has absent `adc_data` and its actuator is powered down (and the
serviced channel index is returned). -/
theorem poll_adc_sentinel_fail_safe (c : Channels) (ch : Fin 2) (t : ℤ)
    (h : (c.channel_state ch).pid_engaged = true) :
    ((c.poll_adc t (some ch) ad7172.MAX_VALUE).2.channel_state ch).adc_data = none
    ∧ ((c.poll_adc t (some ch) ad7172.MAX_VALUE).2.channel ch).powered = false
    ∧ (c.poll_adc t (some ch) ad7172.MAX_VALUE).1 = some ch := by
  have hst : ((c.channel ch).state.update t ad7172.MAX_VALUE).update_pid
      = (none, (c.channel ch).state.update t ad7172.MAX_VALUE) := by
    unfold ChannelState.update_pid ChannelState.get_temperature ChannelState.get_sens
      ChannelState.get_adc ChannelState.update
    simp
  have heng : ((c.channel ch).state.update t ad7172.MAX_VALUE).pid_engaged = true := h
  simp only [Channels.poll_adc, hst, heng, if_true, Channels.power_down,
    channel_setChannel, setChannel_setChannel, Channels.channel_state]
  refine ⟨?_, trivial, trivial⟩
  show ((c.channel ch).state.update t ad7172.MAX_VALUE).adc_data = none
  unfold ChannelState.update
  simp

/-- Witness for C2: the theorem applied to `sampleChannels` (whose channel 0
has `pid_engaged`) at time 5. -/
theorem poll_adc_sentinel_fail_safe_witness :
    (sampleChannels.channel_state 0).pid_engaged = true
    ∧ ((sampleChannels.poll_adc 5 (some 0) ad7172.MAX_VALUE).2.channel_state 0).adc_data
        = none
    ∧ ((sampleChannels.poll_adc 5 (some 0) ad7172.MAX_VALUE).2.channel 0).powered
        = false
    ∧ (sampleChannels.poll_adc 5 (some 0) ad7172.MAX_VALUE).1 = some 0 :=
  ⟨rfl, (poll_adc_sentinel_fail_safe sampleChannels 0 5 rfl).1,
    (poll_adc_sentinel_fail_safe sampleChannels 0 5 rfl).2.1,
    (poll_adc_sentinel_fail_safe sampleChannels 0 5 rfl).2.2⟩

theorem closest_foldl_min (r : ℚ) (l : List ad7172.PostFilter) :
    ∀ b : ℚ × ad7172.PostFilter, b.1 = |r - ad7172.PostFilter.rateOf b.2| →
    ∃ p : ℚ × ad7172.PostFilter,
      l.foldl (ad7172.PostFilter.closestStep r) (some b) = some p
      ∧ p.1 = |r - ad7172.PostFilter.rateOf p.2|
      ∧ (p.2 = b.2 ∨ p.2 ∈ l)
      ∧ p.1 ≤ b.1
      ∧ ∀ v ∈ l, p.1 ≤ |r - ad7172.PostFilter.rateOf v| := by
  induction l with
  | nil =>
    intro b hb
    exact ⟨b, rfl, hb, Or.inl rfl, le_refl _, by simp⟩
  | cons v rest ih =>
    intro b hb
    by_cases hlt : |r - ad7172.PostFilter.rateOf v| < b.1
    · obtain ⟨p, hfold, hp, hmem, hle, hall⟩ :=
        ih (|r - ad7172.PostFilter.rateOf v|, v) rfl
      refine ⟨p, ?_, hp, ?_, le_trans hle hlt.le, ?_⟩
      · rw [List.foldl_cons]
        have hstep : ad7172.PostFilter.closestStep r (some b) v
            = some (|r - ad7172.PostFilter.rateOf v|, v) := by
          simp [ad7172.PostFilter.closestStep, hlt]
        rw [hstep]; exact hfold
      · rcases hmem with h | h
        · exact Or.inr (h ▸ List.mem_cons_self v rest)
        · exact Or.inr (List.mem_cons_of_mem v h)
      · intro v2 hv2
        rcases List.mem_cons.mp hv2 with h | h
        · rw [h]; exact hle
        · exact hall v2 h
    · obtain ⟨p, hfold, hp, hmem, hle, hall⟩ := ih b hb
      refine ⟨p, ?_, hp, ?_, hle, ?_⟩
      · rw [List.foldl_cons]
        have hstep : ad7172.PostFilter.closestStep r (some b) v = some b := by
          simp [ad7172.PostFilter.closestStep, hlt]
        rw [hstep]; exact hfold
      · rcases hmem with h | h
        · exact Or.inl h
        · exact Or.inr (List.mem_cons_of_mem v h)
      · intro v2 hv2
        rcases List.mem_cons.mp hv2 with h | h
        · rw [h]; exact le_trans hle (not_lt.mp hlt)
        · exact hall v2 h

/-- Claim C8: for every target rate, `PostFilter::closest` scans the full
preset menu and selects a preset minimizing the absolute error; the preset
rates are pairwise distinct; and `closest(21.0)` selects the 20 SPS preset,
whose absolute error 1.0 is the smallest among the four. -/
theorem postfilter_closest_minimizes :
    (∀ r : ℚ, ∃ f, ad7172.PostFilter.closest r = some f
        ∧ f ∈ ad7172.PostFilter.VALID_VALUES
        ∧ ∀ v ∈ ad7172.PostFilter.VALID_VALUES,
            |r - ad7172.PostFilter.rateOf f| ≤ |r - ad7172.PostFilter.rateOf v|)
    ∧ List.Pairwise (fun a b => ad7172.PostFilter.rateOf a ≠ ad7172.PostFilter.rateOf b)
        ad7172.PostFilter.VALID_VALUES
    ∧ ad7172.PostFilter.closest 21 = some ad7172.PostFilter.F20SPS
    ∧ |(21 : ℚ) - ad7172.PostFilter.rateOf ad7172.PostFilter.F20SPS| = 1 := by
  have r27 : ad7172.PostFilter.rateOf ad7172.PostFilter.F27SPS = 27.27 := rfl
  have r25 : ad7172.PostFilter.rateOf ad7172.PostFilter.F25SPS = 25.0 := rfl
  have r20 : ad7172.PostFilter.rateOf ad7172.PostFilter.F20SPS = 20.0 := rfl
  have r16 : ad7172.PostFilter.rateOf ad7172.PostFilter.F16SPS = 16.667 := rfl
  have part1 : ∀ r : ℚ, ∃ f, ad7172.PostFilter.closest r = some f
      ∧ f ∈ ad7172.PostFilter.VALID_VALUES
      ∧ ∀ v ∈ ad7172.PostFilter.VALID_VALUES,
          |r - ad7172.PostFilter.rateOf f| ≤ |r - ad7172.PostFilter.rateOf v| := ?_
  · refine ⟨part1, ?_, ?_, ?_⟩
    · simp only [ad7172.PostFilter.VALID_VALUES]
      refine List.Pairwise.cons ?_ (List.Pairwise.cons ?_ (List.Pairwise.cons ?_
        (List.pairwise_singleton _ _)))
      all_goals intro b hb
      all_goals fin_cases hb <;>
        norm_num [ad7172.PostFilter.rateOf, ad7172.PostFilter.output_rate]
    · obtain ⟨f, hf, hmem3, hmin⟩ := part1 21
      have hle20 := hmin ad7172.PostFilter.F20SPS
        (by simp [ad7172.PostFilter.VALID_VALUES])
      have hf20 : f = ad7172.PostFilter.F20SPS := by
        fin_cases hmem3
        · exfalso
          rw [r27, r20, abs_of_nonpos (by norm_num), abs_of_nonneg (by norm_num)] at hle20
          norm_num at hle20
        · exfalso
          rw [r25, r20, abs_of_nonpos (by norm_num), abs_of_nonneg (by norm_num)] at hle20
          norm_num at hle20
        · rfl
        · exfalso
          rw [r16, r20, abs_of_nonneg (by norm_num), abs_of_nonneg (by norm_num)] at hle20
          norm_num at hle20
      rw [← hf20]; exact hf
    · rw [r20, abs_of_nonneg (by norm_num)]; norm_num
  intro r
  obtain ⟨p, hfold, hp, hmem, hle, hall⟩ := closest_foldl_min r
    [ad7172.PostFilter.F25SPS, ad7172.PostFilter.F20SPS, ad7172.PostFilter.F16SPS]
    (|r - ad7172.PostFilter.rateOf ad7172.PostFilter.F27SPS|, ad7172.PostFilter.F27SPS)
    rfl
  have hunfold : ad7172.PostFilter.VALID_VALUES.foldl (ad7172.PostFilter.closestStep r) none
      = [ad7172.PostFilter.F25SPS, ad7172.PostFilter.F20SPS,
          ad7172.PostFilter.F16SPS].foldl (ad7172.PostFilter.closestStep r)
          (some (|r - ad7172.PostFilter.rateOf ad7172.PostFilter.F27SPS|,
            ad7172.PostFilter.F27SPS)) := rfl
  have hclosest : ad7172.PostFilter.closest r = some p.2 := by
    rw [ad7172.PostFilter.closest, hunfold, hfold]; rfl
  refine ⟨p.2, hclosest, ?_, ?_⟩
  · rcases hmem with h | h
    · rw [h]; exact List.mem_cons_self _ _
    · exact List.mem_cons_of_mem _ h
  · intro v hv
    rw [← hp]
    simp only [ad7172.PostFilter.VALID_VALUES, List.mem_cons,
      List.not_mem_nil, or_false] at hv
    rcases hv with rfl | rfl | rfl | rfl
    · exact hle
    · exact hall _ (by simp)
    · exact hall _ (by simp)
    · exact hall _ (by simp)

theorem closestGen_foldl_isSome {α : Type} (err : ad7172.PostFilter → α)
    (lt : α → α → Bool) (l : List ad7172.PostFilter)
    (b : Option (α × ad7172.PostFilter)) (hb : b.isSome = true) :
    (l.foldl (ad7172.PostFilter.closestGenStep err lt) b).isSome = true := by
  induction l generalizing b with
  | nil => exact hb
  | cons v rest ih =>
    rw [List.foldl_cons]
    refine ih _ ?_
    rcases b with _ | p
    · simp at hb
    · cases hlt : lt (err v) p.1 <;>
        simp [ad7172.PostFilter.closestGenStep, hlt]

/-- Claim C10: for every input rate — under any model of `f32` error values
and of the `f32` strict order, hence also for NaN, infinities and rates
arbitrarily far from every preset — `PostFilter::closest` returns `Some`
preset and never `None`; the rational instantiation recovers `closest`
exactly, so the no-matching-rate error branch of the `set_post_filter`
command handler is unreachable. -/
theorem postfilter_closest_total :
    (∀ (α : Type) (err : ad7172.PostFilter → α) (lt : α → α → Bool),
        (ad7172.PostFilter.closestGen err lt).isSome = true)
    ∧ (∀ r : ℚ, ad7172.PostFilter.closest r =
        ad7172.PostFilter.closestGen (fun v => |r - ad7172.PostFilter.rateOf v|)
          (fun a b => decide (a < b)))
    ∧ (∀ r : ℚ, set_post_filter r = Except.ok Handler.Handled) := by
  have hsome : ∀ (α : Type) (err : ad7172.PostFilter → α) (lt : α → α → Bool),
      (ad7172.PostFilter.closestGen err lt).isSome = true := by
    intro α err lt
    have hunfold : ad7172.PostFilter.VALID_VALUES.foldl
        (ad7172.PostFilter.closestGenStep err lt) none
        = [ad7172.PostFilter.F25SPS, ad7172.PostFilter.F20SPS,
            ad7172.PostFilter.F16SPS].foldl (ad7172.PostFilter.closestGenStep err lt)
            (some (err ad7172.PostFilter.F27SPS, ad7172.PostFilter.F27SPS)) := rfl
    have h2 := closestGen_foldl_isSome err lt
      [ad7172.PostFilter.F25SPS, ad7172.PostFilter.F20SPS, ad7172.PostFilter.F16SPS]
      (some (err ad7172.PostFilter.F27SPS, ad7172.PostFilter.F27SPS)) rfl
    obtain ⟨p, hp⟩ := Option.isSome_iff_exists.mp h2
    rw [ad7172.PostFilter.closestGen, hunfold, hp]
    rfl
  have hinst : ∀ r : ℚ, ad7172.PostFilter.closest r =
      ad7172.PostFilter.closestGen (fun v => |r - ad7172.PostFilter.rateOf v|)
        (fun a b => decide (a < b)) := fun _ => rfl
  refine ⟨hsome, hinst, ?_⟩
  intro r
  have h := hsome ℚ (fun v => |r - ad7172.PostFilter.rateOf v|) (fun a b => decide (a < b))
  rw [← hinst r] at h
  obtain ⟨f, hf⟩ := Option.isSome_iff_exists.mp h
  rw [set_post_filter.eq_def, hf]

theorem sweepGo_eq_takeWhile_foldl (target : ℚ) (fb : ℕ → ℚ) (l : List ℕ) :
    ∀ s : CalibState, sweepGo target fb l s
      = (l.takeWhile (fun v => decide (0 ≤ target - fb v))).foldl
          (calibUpdate target fb) s := by
  induction l with
  | nil => intro s; rfl
  | cons v rest ih =>
    intro s
    simp only [sweepGo]
    by_cases h : target - fb v < 0
    · rw [if_pos h, List.takeWhile_cons_of_neg, List.foldl_nil]
      simp [not_le.mpr h]
    · rw [if_neg h, List.takeWhile_cons_of_pos (by simp [not_lt.mp h]), List.foldl_cons]
      have he : 0 ≤ target - fb v := not_lt.mp h
      by_cases h2 : target - fb v < s.best_error
      · rw [if_pos h2, ih]
        congr 1
        rw [calibUpdate, if_pos ⟨he, h2⟩]
      · rw [if_neg h2, ih]
        congr 1
        rw [calibUpdate, if_neg]
        rintro ⟨-, hc⟩
        exact h2 hc

theorem candidates_cons (delta start : ℕ) (hd : 0 < delta)
    (hle : start ≤ ad5680.MAX_VALUE) :
    candidates start delta = start :: candidates (start + delta) delta := by
  unfold candidates
  rw [if_pos hle]
  by_cases h2 : start + delta ≤ ad5680.MAX_VALUE
  · rw [if_pos h2]
    have hdiv : (ad5680.MAX_VALUE - start) / delta
        = (ad5680.MAX_VALUE - (start + delta)) / delta + 1 := by
      rw [Nat.div_eq_sub_div hd (by omega)]
      congr 2
      omega
    rw [hdiv, List.range_succ_eq_map, List.map_cons, List.map_map]
    congr 1
    · simp
    · refine List.map_congr_left ?_
      intro k _
      show start + Nat.succ k * delta = start + delta + k * delta
      rw [Nat.succ_eq_add_one]
      ring
  · rw [if_neg h2]
    have hz : (ad5680.MAX_VALUE - start) / delta = 0 := Nat.div_eq_of_lt (by omega)
    rw [hz]
    simp [List.range_succ]

theorem candidates_eq_specChain (delta : ℕ) (hd : 0 < delta) (start : ℕ) :
    candidates start delta = specChain delta start := by
  suffices h : ∀ n start2, ad5680.MAX_VALUE + 1 - start2 ≤ n →
      candidates start2 delta = specChain delta start2 from
    h (ad5680.MAX_VALUE + 1) start (by omega)
  intro n
  induction n with
  | zero =>
    intro start2 hs
    have hgt : ¬ start2 ≤ ad5680.MAX_VALUE := by omega
    unfold specChain
    rw [dif_neg (fun hc => hgt hc.2)]
    unfold candidates
    rw [if_neg hgt]
  | succ n ihn =>
    intro start2 hs
    by_cases hle : start2 ≤ ad5680.MAX_VALUE
    · rw [candidates_cons delta start2 hd hle]
      unfold specChain
      rw [dif_pos ⟨hd, hle⟩]
      congr 1
      exact ihn (start2 + delta) (by omega)
    · unfold specChain
      rw [dif_neg (fun hc => hle hc.2)]
      unfold candidates
      rw [if_neg hle]

/-- Claim C4: the DAC calibration search agrees, step for step, with the
description in the spec: for each (strictly decreasing, power-of-two) step size
the sweep enumerates the ascending candidate chain that starts at the best
code found so far and increments by the step size up to the maximum code;
the sweep at a step size processes exactly the longest prefix on which
`error = target − feedback` stays nonnegative (stopping immediately at the
first negative error); the best code and stored `vref_meas` are updated only
on a nonnegative error strictly smaller than the best so far; and after all
step sizes are exhausted the DAC is reset to code 0 (0 V). -/
theorem calibrate_dac_value_spec (target : ℚ) (fb : ℕ → ℚ) (v0 : ℚ) :
    calibrate_dac_value target fb v0 = calibrateSpec target fb v0
    ∧ (∀ start step, candidates start (2 ^ step) = specChain (2 ^ step) start)
    ∧ List.Pairwise (fun a b => b < a) calibSteps
    ∧ (calibrate_dac_value target fb v0).2 = (0, 0) := by
  have hcand : ∀ start step, candidates start (2 ^ step) = specChain (2 ^ step) start :=
    fun start step => candidates_eq_specChain (2 ^ step) (pow_pos (by norm_num) step) start
  have hfold : ∀ (steps : List ℕ) (s : CalibState),
      steps.foldl (fun s step => sweepGo target fb (candidates s.start_value (2 ^ step)) s) s
        = steps.foldl (fun s step => sweepSpec target fb step s) s := by
    intro steps
    induction steps with
    | nil => intro s; rfl
    | cons st rest ih =>
      intro s
      simp only [List.foldl_cons]
      rw [ih]
      congr 1
      rw [sweepGo_eq_takeWhile_foldl]
      unfold sweepSpec
      rw [hcand]
  refine ⟨?_, hcand, ?_, rfl⟩
  · simp only [calibrate_dac_value, calibrateSpec]
    rw [hfold]
  · unfold calibSteps
    decide

/-- Witness for C9: the theorem applied with bounds `[-2, 2]` and the input
sequence `[5, -3, 100]`. -/
theorem pid_zero_gains_witness :
    ((-2 : ℚ) ≤ 2)
    ∧ ∀ y ∈ (pid.runController
        (pid.Controller.new
          { kp := 0, ki := 0, kd := 0, output_min := -2, output_max := 2 })
        [5, -3, 100]).2, y = rclamp 0 (-2) 2 :=
  ⟨by decide, (pid_zero_gains (-2) 2 (by decide) [5, -3, 100]).1⟩

end Thermostat
